import Mathlib

/-!
Verification of the data-preparation and comparative-training pipeline of
`XGBoost_on_GPU_Quickstart.ipynb`.

The notebook is a linear pipeline over a Snowpark dataframe:
filter (PRICE < 100000) → drop columns → fillna ("NA" / 0) →
top-1000 cardinality reduction of MODEL (in pandas) → self-union twice →
one-hot encode, rename, sort columns → seeded random split →
two XGBRegressor configurations (CPU vs GPU).

The embedding models a Snowpark dataframe row-major (schema plus rows of
nullable cells) and the pandas frame column-major, mirroring the
`to_pandas` boundary in the notebook.
-/

namespace XgbPipeline

/-- The two column kinds distinguished by the notebook (it partitions the
schema into string-typed columns and everything else, and the table holds
only string and numeric columns). -/
inductive SqlType where
  | string
  | numeric
deriving DecidableEq, Repr

/-- A non-null cell value. -/
inductive Value where
  | str (s : String)
  | num (n : Int)
deriving DecidableEq, Repr

/-- The SQL type a literal fill value would have (Snowpark `fillna` skips
columns whose type does not match the fill value). -/
def Value.typeOf : Value → SqlType
  | .str _ => .string
  | .num _ => .numeric

/-- A cell is nullable: `none` is SQL NULL / a missing value. -/
abbrev Cell := Option Value

/-- Row-major model of a Snowpark dataframe: a schema (column name and
type, in order) and rows of cells. -/
structure SpDataFrame where
  schema : List (String × SqlType)
  rows : List (List Cell)
deriving DecidableEq, Repr

/-- `df.columns`. -/
def SpDataFrame.columns (df : SpDataFrame) : List String :=
  df.schema.map Prod.fst

/-- Index of the first column with the given name, if any. -/
def findColIdx (sch : List (String × SqlType)) (n : String) : Option Nat :=
  match sch with
  | [] => none
  | c :: rest => if c.1 = n then some 0 else (findColIdx rest n).map (· + 1)

/-- `df.select(names)`: keep the requested columns, in request order
(projection of both schema and rows). -/
def selectCols (names : List String) (df : SpDataFrame) : SpDataFrame :=
  let idxs := names.filterMap (fun n => findColIdx df.schema n)
  { schema := idxs.filterMap (fun i => df.schema.get? i)
    rows := df.rows.map (fun r => idxs.filterMap (fun i => r.get? i)) }

/-- `df.drop(names)`: remove the named columns from schema and rows. -/
def dropCols (names : List String) (df : SpDataFrame) : SpDataFrame :=
  { schema := df.schema.filter (fun c => c.1 ∉ names)
    rows := df.rows.map (fun r =>
      ((df.schema.zip r).filter (fun p => p.1.1 ∉ names)).map Prod.snd) }

/-- The cell of row `r` in the column named `n` (NULL when the column is
absent or the row is too short). -/
def getCell (df : SpDataFrame) (r : List Cell) (n : String) : Cell :=
  match findColIdx df.schema n with
  | none => none
  | some i =>
    match r.get? i with
    | none => none
    | some cell => cell

/-- SQL three-valued `column < k`: TRUE only for a non-null numeric value
below `k`; NULL (or a non-numeric cell) never compares TRUE. -/
def cellLtBool (c : Cell) (k : Int) : Bool :=
  match c with
  | some (.num n) => n < k
  | _ => false

/-- SQL three-valued `column >= k`, used to state the spec sentence about
which rows the filter removes. -/
def cellGeBool (c : Cell) (k : Int) : Bool :=
  match c with
  | some (.num n) => k ≤ n
  | _ => false

/-- `df.filter(col(name) < k)`: keep the rows where the comparison is
TRUE (SQL semantics: rows where it is FALSE or NULL are removed). -/
def filterLtCol (name : String) (k : Int) (df : SpDataFrame) : SpDataFrame :=
  { schema := df.schema
    rows := df.rows.filter (fun r => cellLtBool (getCell df r name) k) }

/-- One row of `df.fillna(v, subset)`: a NULL cell of a column in `subset`
whose type matches the fill value becomes `v`; every other cell is kept
(Snowpark skips columns whose type does not match the fill value). -/
def fillRow (sch : List (String × SqlType)) (subset : List String) (v : Value)
    (r : List Cell) : List Cell :=
  (sch.zip r).map (fun p =>
    if p.1.1 ∈ subset ∧ p.1.2 = v.typeOf ∧ p.2 = none then some v else p.2)

/-- `df.fillna(v, subset)`. -/
def fillna (v : Value) (subset : List String) (df : SpDataFrame) : SpDataFrame :=
  { schema := df.schema
    rows := df.rows.map (fillRow df.schema subset v) }

/-- `df.select('REGION').schema[0].datatype`: the notebook derives "the
string type" from the REGION column. -/
def stringTypeOf (df : SpDataFrame) : Option SqlType :=
  ((selectCols ["REGION"] df).schema.head?).map Prod.snd

/-- `string_cols`: names of the columns whose datatype equals the derived
string type (the notebook selects those names and reads `.columns`, which
returns them unchanged). -/
def stringColsOf (df : SpDataFrame) (st : SqlType) : List String :=
  (df.schema.filter (fun c => c.2 = st)).map Prod.fst

/-- `non_string_cols = df.drop(string_cols).columns`. -/
def nonStringColsOf (df : SpDataFrame) (st : SqlType) : List String :=
  (dropCols (stringColsOf df st) df).columns

/-- The fill step of the Cleaner: `df.fillna("NA", subset=string_cols)`
followed by `df.fillna(0, subset=non_string_cols)`. -/
def cleanerFill (df : SpDataFrame) : SpDataFrame :=
  match stringTypeOf df with
  | some st =>
      fillna (.num 0) (nonStringColsOf df st)
        (fillna (.str "NA") (stringColsOf df st) df)
  | none => df

/-- `df.unionAll(df2)`: rows appended, schema of the left operand. -/
def unionAll (d1 d2 : SpDataFrame) : SpDataFrame :=
  { schema := d1.schema, rows := d1.rows ++ d2.rows }

/-- The Volume Amplifier loop `for i in range(1, k+1): df = df.unionAll(df)`:
`k` self-union iterations. -/
def volumeAmplify : Nat → SpDataFrame → SpDataFrame
  | 0, df => df
  | k + 1, df => volumeAmplify k (unionAll df df)

end XgbPipeline

namespace XgbPipeline

/-- Configuration fields of `snowflake.ml.modeling.xgboost.XGBRegressor`
that the notebook sets. -/
structure XGBRegressorCfg where
  input_cols : List String
  label_cols : List String
  output_cols : String
  tree_method : String
  predictor : String
  n_estimators : Nat
deriving DecidableEq, Repr

/-- `cpu_snowpark_xgb = XGBRegressor(...)` as configured in the notebook. -/
def cpuSnowparkXgb (train : SpDataFrame) : XGBRegressorCfg :=
  { input_cols := (dropCols ["PRICE"] train).columns
    label_cols := (selectCols ["PRICE"] train).columns
    output_cols := "PREDICTED_PRICE"
    tree_method := "hist"
    predictor := "cpu_predictor"
    n_estimators := 1000 }

/-- `gpu_snowpark_xgb = XGBRegressor(...)` as configured in the notebook. -/
def gpuSnowparkXgb (train : SpDataFrame) : XGBRegressorCfg :=
  { input_cols := (dropCols ["PRICE"] train).columns
    label_cols := (selectCols ["PRICE"] train).columns
    output_cols := "PREDICTED_PRICE"
    tree_method := "gpu_hist"
    predictor := "gpu_predictor"
    n_estimators := 1000 }

/-- A pseudo-random step (a linear congruential generator), the seeded
per-row source of randomness for the modelled split. -/
def lcgNext (x : Nat) : Nat := (1103515245 * x + 12345) % 2147483648

/-- The pseudo-random draw for row `i` under `seed`. -/
def rowDraw (seed i : Nat) : Nat := lcgNext (seed + i + 1)

/-- Modelled from the spec: Snowpark `DataFrame.random_split` is library
code absent from the repository; per the spec it partitions the rows by a
probabilistic, seeded assignment that reproduces the same split whenever
the same seeding algorithm runs on the same input. Each row is assigned
by a deterministic seeded draw: into the first part when the draw lands
under `trainPct` of 100, into the second otherwise. -/
def randomSplit (trainPct seed : Nat) (df : SpDataFrame) :
    SpDataFrame × SpDataFrame :=
  ({ schema := df.schema
     rows := (df.rows.enum.filter
       (fun p => rowDraw seed p.1 % 100 < trainPct)).map Prod.snd },
   { schema := df.schema
     rows := (df.rows.enum.filter
       (fun p => ¬ rowDraw seed p.1 % 100 < trainPct)).map Prod.snd })

/-- First independent run of
`df_renamed.random_split(weights=[0.95, 0.05], seed=0)`. -/
def splitRunA (df : SpDataFrame) : SpDataFrame × SpDataFrame :=
  randomSplit 95 0 df

/-- Second independent run of the same call. -/
def splitRunB (df : SpDataFrame) : SpDataFrame × SpDataFrame :=
  randomSplit 95 0 df

/-- `series.value_counts().keys()`: the distinct values sorted by
descending occurrence count. -/
def sortedByCount [DecidableEq α] (xs : List α) : List α :=
  List.insertionSort (fun a b => xs.count b ≤ xs.count a) xs.dedup

/-- `value_counts().keys()[0:n]`: the `n` most frequent distinct values. -/
def topNKeys [DecidableEq α] (n : Nat) (xs : List α) : List α :=
  (sortedByCount xs).take n

/-- `series.apply(lambda x: x if x in top_n else sentinel)` where `top_n`
is the top-`n` value list of the same series. -/
def reduceInfrequent [DecidableEq α] (sentinel : α) (n : Nat)
    (xs : List α) : List α :=
  xs.map (fun x => if x ∈ topNKeys n xs then x else sentinel)

/-- Column-major model of the pandas frame produced by `df.to_pandas()`. -/
structure PdFrame where
  cols : List (String × List Cell)
deriving DecidableEq, Repr

/-- `df_pd['MODEL'] = df_pd.MODEL.apply(...)`: replace the MODEL column by
its top-1000 reduction, leaving all other columns alone. -/
def reduceModelFrame (df : PdFrame) : PdFrame :=
  { cols := df.cols.map (fun c =>
      if c.1 = "MODEL" then
        (c.1, reduceInfrequent (some (Value.str "INFREQUENT")) 1000 c.2)
      else c) }

/-- `df_pd[name]`: the cell list of the named column. -/
def lookupPdCol (name : String) (df : PdFrame) : Option (List Cell) :=
  (df.cols.find? (fun c => c.1 = name)).map Prod.snd

/-- A column of the dataframe at the Encoder stage. -/
structure PCol where
  name : String
  dtype : SqlType
  cells : List Cell
deriving DecidableEq, Repr

/-- `OHE_COLS = string_cols`: the names of the string-typed columns (the
schema's column names are unchanged since the Cleaner computed them). -/
def stringColNames (cols : List PCol) : List String :=
  (cols.filter (fun c => c.dtype = .string)).map PCol.name

/-- Text rendering of a cell value, used in generated column names. -/
def valueText : Cell → String
  | some (.str s) => s
  | some (.num n) => n.repr
  | none => "None"

/-- Modelled from the spec: the indicator columns that
`snowml.OneHotEncoder` generates for one categorical column — one numeric
0/1 column per distinct value, named by a double-quoted identifier built
from the source column name and the value. -/
def oheExpand (c : PCol) : List PCol :=
  c.cells.dedup.map (fun v =>
    { name := "\"" ++ c.name ++ "_" ++ valueText v ++ "\""
      dtype := .numeric
      cells := c.cells.map (fun w =>
        if w = v then some (.num 1) else some (.num 0)) })

/-- Modelled from the spec: `snowml.OneHotEncoder(input_cols=OHE_COLS,
output_cols=OHE_COLS, drop_input_cols=True).fit(df).transform(df)` is
library code absent from the repository; per the spec it replaces every
input column by its generated indicator columns (dropping the original)
and leaves the other columns alone. -/
def oneHotEncode (inputCols : List String) (cols : List PCol) : List PCol :=
  cols.flatMap (fun c => if c.name ∈ inputCols then oheExpand c else [c])

/-- The decimal digit characters. -/
def digitToChar : Nat → Char
  | 0 => '0'
  | 1 => '1'
  | 2 => '2'
  | 3 => '3'
  | 4 => '4'
  | 5 => '5'
  | 6 => '6'
  | 7 => '7'
  | 8 => '8'
  | 9 => '9'
  | _ => 'X'

/-- Fuel-driven decimal rendering (most significant digit first). -/
def natDigitsAux : Nat → Nat → List Char
  | 0, _ => []
  | fuel + 1, n =>
    if n < 10 then [digitToChar n]
    else natDigitsAux fuel (n / 10) ++ [digitToChar (n % 10)]

/-- The decimal digits of `n`, as Python `str(n)` renders them. -/
def natDigits (n : Nat) : List Char := natDigitsAux (n + 1) n

/-- Index of the first occurrence of a character, Python `s.find(ch)`
restricted to the found case. -/
def firstIdx (c : Char) : List Char → Option Nat
  | [] => none
  | x :: xs => if x = c then some 0 else (firstIdx c xs).map (· + 1)

/-- Whether `col.find('"') == 0`: the name is nonempty and starts with a
double quote. -/
def startsWithQuote (s : String) : Bool :=
  match s.toList with
  | c :: _ => c = '"'
  | [] => false

/-- `col[1:col.find("_")]` (Python slicing: everything from position 1 up
to the first underscore, or up to the last character when no underscore
exists). -/
def renameStem (cs : List Char) : List Char :=
  match firstIdx '_' cs with
  | some j => (cs.take j).drop 1
  | none => (cs.drop 1).dropLast

/-- The numeric value of a decimal digit character. -/
def digitVal (c : Char) : Nat := c.toNat - 48

/-- The number a digit string denotes. -/
def digitsVal (cs : List Char) : Nat :=
  cs.foldl (fun acc c => 10 * acc + digitVal c) 0

/-- One entry of `renaming_dict`: a column whose name starts with a double
quote becomes its stem followed by the positional suffix `__n`; any other
column keeps its name. -/
def renameOne (n : Nat) (colName : String) : String :=
  if startsWithQuote colName then
    String.mk (renameStem colName.toList ++ '_' :: '_' :: natDigits n)
  else colName

/-- `transformed_df.rename(renaming_dict)`: every column renamed by its
dict entry (the dict is keyed by the distinct column names, so this acts
per position). -/
def renameFrame (cols : List PCol) : List PCol :=
  cols.enum.map (fun p => { p.2 with name := renameOne p.1 p.2.name })

/-- The renaming applied to a bare list of column names (the values of
`renaming_dict` in input order). -/
def renameNames (names : List String) : List String :=
  names.enum.map (fun p => renameOne p.1 p.2)

/-- `df_renamed.select(sorted(df_renamed.columns))`: columns rearranged
into ascending name order. -/
def sortFrame (cols : List PCol) : List PCol :=
  List.insertionSort (fun a b => a.name ≤ b.name) cols

/-- The full Encoder stage: one-hot encode the string columns, rename,
then sort the columns by name. -/
def encoderStage (cols : List PCol) : List PCol :=
  sortFrame (renameFrame (oneHotEncode (stringColNames cols) cols))

/-- Example frame for the fill step: a string REGION column and a numeric
PRICE column, one row, both cells NULL. -/
def exDfFill : SpDataFrame :=
  { schema := [("REGION", .string), ("PRICE", .numeric)]
    rows := [[none, none]] }

/-- Example encoder input whose only column name starts with two double
quotes; the renamed name still starts with a double quote. -/
def exColsQuote : List PCol :=
  [{ name := "\"\"A_B", dtype := .numeric, cells := [some (.num 1)] }]

/-- Example encoder-shaped frame: numeric columns, sorted names, no name
starting with a double quote. -/
def exColsPlain : List PCol :=
  [{ name := "A", dtype := .numeric, cells := [some (.num 1)] },
   { name := "B", dtype := .numeric, cells := [some (.num 2)] }]

/-- Example pandas frame with a MODEL column and a PRICE column. -/
def exPdFrame : PdFrame :=
  { cols := [("MODEL", [some (.str "civic")]), ("PRICE", [some (.num 3)])] }

/-- Example frame for the filter counterexample: a single row whose PRICE
is NULL (the filter runs before the fill step, so NULL prices exist). -/
def exDfNullPrice : SpDataFrame :=
  { schema := [("PRICE", .numeric)], rows := [[none]] }

/-- Example frame with one row whose PRICE is 5, kept by the filter. -/
def exDfCheapPrice : SpDataFrame :=
  { schema := [("PRICE", .numeric)], rows := [[some (.num 5)]] }

/-- Example training frame with a PRICE column. -/
def exTrainFrame : SpDataFrame :=
  { schema := [("A", .numeric), ("PRICE", .numeric)], rows := [] }

end XgbPipeline

namespace XgbPipeline

/-- The column names surviving `df.drop(names)` are the original columns
with the named ones removed. -/
theorem dropCols_columns (names : List String) (df : SpDataFrame) :
    (dropCols names df).columns = df.columns.filter (fun n => n ∉ names) := by
  show (df.schema.filter _).map Prod.fst = (df.schema.map Prod.fst).filter _
  induction df.schema with
  | nil => rfl
  | cons c rest ih =>
    simp only [decide_not] at ih
    by_cases h : c.1 ∈ names <;> simp [List.filter_cons, h, ih]

/-- A name occurring in a schema is found by `findColIdx`, at an index
holding a column with that name. -/
theorem findColIdx_of_mem {sch : List (String × SqlType)} {n : String}
    (h : n ∈ sch.map Prod.fst) :
    ∃ i c, findColIdx sch n = some i ∧ sch[i]? = some c ∧ c.1 = n := by
  induction sch with
  | nil => simp at h
  | cons c rest ih =>
    by_cases hc : c.1 = n
    · exact ⟨0, c, by simp [findColIdx, hc], by simp, hc⟩
    · have h' : n ∈ rest.map Prod.fst := by
        rcases List.mem_cons.mp h with h0 | h0
        · exact absurd h0.symm hc
        · exact h0
      obtain ⟨i, d, hfind, hget, hd⟩ := ih h'
      exact ⟨i + 1, d, by simp [findColIdx, hc, hfind], by simpa using hget, hd⟩

/-- Pairs of `l.zip (l.map f)` relate each element to its image. -/
theorem zip_map_self {α β : Type} (l : List α) (f : α → β) :
    ∀ p ∈ l.zip (l.map f), p.2 = f p.1 := by
  induction l with
  | nil => simp
  | cons x xs ih =>
    intro p hp
    rcases List.mem_cons.mp hp with h | h
    · rw [h]
    · exact ih p h

/-- Behaviour of the two chained fill steps on one row, cell by cell:
given that the first subset holds exactly the string-typed names and the
second exactly the numeric-typed ones, every cell comes out non-null, a
NULL cell becomes "NA" or 0 according to its column type, and a non-null
cell is kept. -/
theorem fillRow_fillRow_spec (s1 s2 : List String) :
    ∀ (sch : List (String × SqlType)) (r : List Cell),
      (∀ c ∈ sch, (c.1 ∈ s1 ↔ c.2 = SqlType.string) ∧
        (c.1 ∈ s2 ↔ c.2 = SqlType.numeric)) →
      ∀ t ∈ sch.zip (r.zip
          (fillRow sch s2 (.num 0) (fillRow sch s1 (.str "NA") r))),
        t.2.2 ≠ none ∧
          (t.2.1 = none →
            t.2.2 = if t.1.2 = SqlType.string then some (Value.str "NA")
              else some (Value.num 0)) ∧
          (t.2.1 ≠ none → t.2.2 = t.2.1) := by
  intro sch
  induction sch with
  | nil => intro r _ t ht; simp at ht
  | cons c sch' ih =>
    intro r hcols t ht
    cases r with
    | nil => simp [fillRow] at ht
    | cons x r' =>
      have hstep : fillRow (c :: sch') s2 (.num 0)
          (fillRow (c :: sch') s1 (.str "NA") (x :: r')) =
          (let y := if c.1 ∈ s1 ∧ c.2 = (Value.str "NA").typeOf ∧ x = none
            then some (Value.str "NA") else x;
          (if c.1 ∈ s2 ∧ c.2 = (Value.num 0).typeOf ∧ y = none
            then some (Value.num 0) else y)) ::
          fillRow sch' s2 (.num 0) (fillRow sch' s1 (.str "NA") r') := rfl
      rw [hstep] at ht
      rcases List.mem_cons.mp ht with hhd | htl
      · obtain ⟨h1, h2⟩ := hcols c (List.mem_cons_self c sch')
        subst hhd
        cases hty : c.2 with
        | string =>
          have hs1 : c.1 ∈ s1 := h1.mpr hty
          have hs2 : c.1 ∉ s2 := by
            intro hh
            have hq := h2.mp hh
            rw [hty] at hq
            exact absurd hq (by decide)
          by_cases hx : x = none
          · simp [hs1, hs2, hx, hty, Value.typeOf]
          · simp [hs1, hs2, hx, hty, Value.typeOf]
        | numeric =>
          have hs1 : c.1 ∉ s1 := by
            intro hh
            have hq := h1.mp hh
            rw [hty] at hq
            exact absurd hq (by decide)
          have hs2 : c.1 ∈ s2 := h2.mpr hty
          by_cases hx : x = none
          · simp [hs1, hs2, hx, hty, Value.typeOf]
          · simp [hs1, hs2, hx, hty, Value.typeOf]
      · exact ih r' (fun d hd => hcols d (List.mem_cons_of_mem c hd)) t htl

/-- With distinct column names, a schema entry's name is in `string_cols`
exactly when its type is the string type. -/
theorem mem_stringColsOf_iff {df : SpDataFrame} (hnd : df.columns.Nodup)
    {c : String × SqlType} (hc : c ∈ df.schema) :
    c.1 ∈ stringColsOf df .string ↔ c.2 = SqlType.string := by
  have hnd' : (df.schema.map Prod.fst).Nodup := hnd
  constructor
  · intro h
    rcases List.mem_map.mp h with ⟨d, hd, hfst⟩
    have hd' := List.mem_filter.mp hd
    have hdc : d = c := List.inj_on_of_nodup_map hnd' hd'.1 hc hfst
    have := hd'.2
    rw [hdc] at this
    simpa using this
  · intro h
    exact List.mem_map.mpr ⟨c, List.mem_filter.mpr ⟨hc, by simp [h]⟩, rfl⟩

/-- With distinct column names, a schema entry's name is in
`non_string_cols` exactly when its type is numeric. -/
theorem mem_nonStringColsOf_iff {df : SpDataFrame} (hnd : df.columns.Nodup)
    {c : String × SqlType} (hc : c ∈ df.schema) :
    c.1 ∈ nonStringColsOf df .string ↔ c.2 = SqlType.numeric := by
  have hcol : c.1 ∈ df.columns := List.mem_map.mpr ⟨c, hc, rfl⟩
  rw [nonStringColsOf, dropCols_columns, List.mem_filter]
  constructor
  · rintro ⟨-, hns⟩
    have hns' : c.1 ∉ stringColsOf df .string := by simpa using hns
    cases hty : c.2 with
    | string => exact absurd ((mem_stringColsOf_iff hnd hc).mpr hty) hns'
    | numeric => rfl
  · intro h
    refine ⟨hcol, ?_⟩
    have : c.1 ∉ stringColsOf df .string := fun hmem => by
      have := (mem_stringColsOf_iff hnd hc).mp hmem
      rw [this] at h
      exact absurd h (by decide)
    simpa using this

/-- C4: the Volume Amplifier of `k` self-union iterations multiplies the
row count by `2 ^ k`; with the notebook's two iterations the output has
exactly 4 times the rows of the input. -/
theorem volumeAmplify_row_count (df : SpDataFrame) :
    (∀ k : Nat, (volumeAmplify k df).rows.length = 2 ^ k * df.rows.length) ∧
      (volumeAmplify 2 df).rows.length = 4 * df.rows.length := by
  have key : ∀ (k : Nat) (d : SpDataFrame),
      (volumeAmplify k d).rows.length = 2 ^ k * d.rows.length := by
    intro k
    induction k with
    | zero => intro d; simp [volumeAmplify]
    | succ k ih =>
      intro d
      rw [volumeAmplify, ih]
      simp [unionAll, pow_succ]
      ring
  exact ⟨fun k => key k df, by rw [key 2 df]; norm_num⟩

/-- C8: the two Trainer configurations agree on every field (input
columns, label column, output column, 1000 estimators) except the tree
construction method ("hist" vs "gpu_hist") and the predictor
("cpu_predictor" vs "gpu_predictor"). -/
theorem trainer_configs_differ_only_in_compute_target (train : SpDataFrame) :
    (cpuSnowparkXgb train).input_cols = (gpuSnowparkXgb train).input_cols ∧
    (cpuSnowparkXgb train).label_cols = (gpuSnowparkXgb train).label_cols ∧
    (cpuSnowparkXgb train).output_cols = (gpuSnowparkXgb train).output_cols ∧
    (cpuSnowparkXgb train).n_estimators = (gpuSnowparkXgb train).n_estimators ∧
    (cpuSnowparkXgb train).n_estimators = 1000 ∧
    (cpuSnowparkXgb train).tree_method = "hist" ∧
    (gpuSnowparkXgb train).tree_method = "gpu_hist" ∧
    (cpuSnowparkXgb train).predictor = "cpu_predictor" ∧
    (gpuSnowparkXgb train).predictor = "gpu_predictor" ∧
    (cpuSnowparkXgb train).tree_method ≠ (gpuSnowparkXgb train).tree_method := by
  refine ⟨rfl, rfl, rfl, rfl, rfl, rfl, rfl, rfl, rfl, ?_⟩
  show ("hist" : String) ≠ "gpu_hist"
  decide

/-- C2: after the Cleaner's fill step (pairing each input row with its
output row and each column with its input and output cell), no cell is
missing; a cell that was missing becomes the sentinel "NA" when its
column is string-typed and 0 otherwise, and a present cell is kept. The
hypotheses record that REGION (from which the notebook derives the string
type) is a string column and that column names are distinct, both true of
the vehicles table. -/
theorem cleaner_fill_no_missing (df : SpDataFrame)
    (hst : stringTypeOf df = some SqlType.string)
    (hnd : df.columns.Nodup) :
    ∀ pr ∈ df.rows.zip (cleanerFill df).rows,
      ∀ t ∈ df.schema.zip (pr.1.zip pr.2),
        t.2.2 ≠ none ∧
          (t.2.1 = none →
            t.2.2 = if t.1.2 = SqlType.string then some (Value.str "NA")
              else some (Value.num 0)) ∧
          (t.2.1 ≠ none → t.2.2 = t.2.1) := by
  intro pr hpr t ht
  have hrows : (cleanerFill df).rows =
      df.rows.map (fun r =>
        fillRow df.schema (nonStringColsOf df .string) (.num 0)
          (fillRow df.schema (stringColsOf df .string) (.str "NA") r)) := by
    simp only [cleanerFill, hst]
    show (df.rows.map _).map _ = _
    rw [List.map_map]
    rfl
  rw [hrows] at hpr
  have hpr2 := zip_map_self df.rows _ pr hpr
  rw [hpr2] at ht
  refine fillRow_fillRow_spec _ _ df.schema pr.1 ?_ t ht
  intro c hc
  exact ⟨mem_stringColsOf_iff hnd hc, mem_nonStringColsOf_iff hnd hc⟩

/-- C2 (witness): the fill theorem applied to a concrete two-column frame
whose single row is all NULL, at the REGION column. -/
theorem cleaner_fill_no_missing_witness :
    stringTypeOf exDfFill = some SqlType.string ∧
      exDfFill.columns.Nodup ∧
      (([none, none], [some (Value.str "NA"), some (Value.num 0)]) ∈
        exDfFill.rows.zip (cleanerFill exDfFill).rows) ∧
      ((("REGION", SqlType.string),
          ((none : Cell), (some (Value.str "NA") : Cell))) ∈
        exDfFill.schema.zip
          ([(none : Cell), none].zip
            [some (Value.str "NA"), some (Value.num 0)])) ∧
      ((some (Value.str "NA") : Cell) ≠ none ∧
        ((none : Cell) = none →
          (some (Value.str "NA") : Cell) =
            if SqlType.string = SqlType.string then some (Value.str "NA")
            else some (Value.num 0)) ∧
        ((none : Cell) ≠ none →
          (some (Value.str "NA") : Cell) = none)) :=
  ⟨by decide, by decide, by decide, by decide,
    cleaner_fill_no_missing exDfFill (by decide) (by decide)
      ([none, none], [some (Value.str "NA"), some (Value.num 0)]) (by decide)
      (("REGION", SqlType.string),
        ((none : Cell), (some (Value.str "NA") : Cell))) (by decide)⟩

/-- Every top-`n` key occurs in the series it was counted from. -/
theorem topNKeys_subset {α : Type} [DecidableEq α] (n : Nat) (xs : List α) :
    ∀ v ∈ topNKeys n xs, v ∈ xs := by
  intro v hv
  have h1 : v ∈ sortedByCount xs := List.take_subset n _ hv
  have h2 : v ∈ xs.dedup := (List.perm_insertionSort _ _).mem_iff.mp h1
  exact List.mem_dedup.mp h2

/-- Splitting a list by a decidable predicate preserves the total
length. -/
theorem length_filter_partition {α : Type} (p : α → Prop) [DecidablePred p]
    (l : List α) :
    (l.filter (fun x => p x)).length +
      (l.filter (fun x => ¬ p x)).length = l.length := by
  induction l with
  | nil => rfl
  | cons x xs ih =>
    by_cases hx : p x
    · rw [List.filter_cons_of_pos (by simpa using hx),
        List.filter_cons_of_neg (by simpa using hx)]
      simp only [List.length_cons]
      omega
    · rw [List.filter_cons_of_neg (by simpa using hx),
        List.filter_cons_of_pos (by simpa using hx)]
      simp only [List.length_cons]
      omega

/-- C3 (counterexample): when the sentinel string is itself among the
top-1000 values and no input value falls outside that set, the sentinel
still appears in the output, contradicting the claim that it appears only
when some input value lies outside the top-1000 set. -/
theorem reduce_model_sentinel_without_outside :
    "INFREQUENT" ∈ reduceInfrequent "INFREQUENT" 1000 ["INFREQUENT"] ∧
      ∀ x ∈ ["INFREQUENT"], x ∈ topNKeys 1000 ["INFREQUENT"] := by
  decide

/-- C3 (amended): a value is among the distinct values of the reduced
MODEL column exactly when it is one of the top-1000 most frequent input
values, or it is the sentinel "INFREQUENT" and some input value lies
outside the top-1000 set; the sentinel can also appear when it is itself
among the top-1000 input values. -/
theorem reduce_model_distinct_values (xs : List String) (v : String) :
    v ∈ reduceInfrequent "INFREQUENT" 1000 xs ↔
      (v ∈ topNKeys 1000 xs ∨
        (v = "INFREQUENT" ∧ ∃ x ∈ xs, x ∉ topNKeys 1000 xs)) := by
  constructor
  · intro h
    rcases List.mem_map.mp h with ⟨x, hx, hfx⟩
    by_cases hxt : x ∈ topNKeys 1000 xs
    · left
      rw [if_pos hxt] at hfx
      rw [← hfx]
      exact hxt
    · right
      rw [if_neg hxt] at hfx
      exact ⟨hfx.symm, x, hx, hxt⟩
  · intro h
    rcases h with hv | ⟨hvs, x, hx, hxt⟩
    · exact List.mem_map.mpr ⟨v, topNKeys_subset 1000 xs v hv, by simp [hv]⟩
    · exact List.mem_map.mpr ⟨x, hx, by rw [if_neg hxt, hvs]⟩

/-- `find?` by a non-MODEL name is blind to the MODEL-column rewrite. -/
theorem find?_reduce_cols (name : String) (h : name ≠ "MODEL")
    (cs : List (String × List Cell)) :
    (cs.map (fun c =>
        if c.1 = "MODEL" then
          (c.1, reduceInfrequent (some (Value.str "INFREQUENT")) 1000 c.2)
        else c)).find? (fun c => c.1 = name) =
      cs.find? (fun c => c.1 = name) := by
  induction cs with
  | nil => rfl
  | cons c rest ih =>
    rw [List.map_cons]
    by_cases hm : c.1 = "MODEL"
    · have hne : ¬ (c.1 = name) := by
        rw [hm]
        intro hh
        exact h hh.symm
      rw [if_pos hm]
      rw [List.find?_cons_of_neg _ (by simpa using hne),
        List.find?_cons_of_neg _ (by simpa using hne)]
      exact ih
    · rw [if_neg hm]
      by_cases hn : c.1 = name
      · rw [List.find?_cons_of_pos _ (by simpa using hn),
          List.find?_cons_of_pos _ (by simpa using hn)]
      · rw [List.find?_cons_of_neg _ (by simpa using hn),
          List.find?_cons_of_neg _ (by simpa using hn)]
        exact ih

/-- C9: the Cardinality Reducer step touches only the MODEL column —
every other column keeps exactly its cell list (same values, same row
order), and every column (MODEL included) keeps its length, so the row
count is unchanged. -/
theorem reduce_model_frame_effect (df : PdFrame) (name : String)
    (h : name ≠ "MODEL") :
    lookupPdCol name (reduceModelFrame df) = lookupPdCol name df ∧
      (reduceModelFrame df).cols.map (fun c => (c.1, c.2.length)) =
        df.cols.map (fun c => (c.1, c.2.length)) := by
  constructor
  · show ((df.cols.map _).find? _).map Prod.snd = _
    rw [find?_reduce_cols name h]
    rfl
  · show (df.cols.map _).map _ = _
    rw [List.map_map]
    refine List.map_congr_left ?_
    intro c _
    by_cases hm : c.1 = "MODEL" <;>
      simp [Function.comp, hm, reduceInfrequent]

/-- C9 (witness): the frame-effect theorem applied to a concrete frame
with a MODEL and a PRICE column, at the PRICE column. -/
theorem reduce_model_frame_effect_witness :
    ("PRICE" : String) ≠ "MODEL" ∧
      (lookupPdCol "PRICE" (reduceModelFrame exPdFrame) =
          lookupPdCol "PRICE" exPdFrame ∧
        (reduceModelFrame exPdFrame).cols.map (fun c => (c.1, c.2.length)) =
          exPdFrame.cols.map (fun c => (c.1, c.2.length))) :=
  ⟨by decide, reduce_model_frame_effect exPdFrame "PRICE" (by decide)⟩

/-- C6: the Splitter is deterministic — two independent runs of
`random_split` with weights [0.95, 0.05] and seed 0 over the same input
produce identical train and test sets, and together the two parts use
every input row exactly once. -/
theorem splitter_deterministic (df : SpDataFrame) :
    splitRunA df = splitRunB df ∧
      (splitRunA df).1.rows.length + (splitRunA df).2.rows.length =
        df.rows.length := by
  refine ⟨rfl, ?_⟩
  show ((df.rows.enum.filter _).map Prod.snd).length +
    ((df.rows.enum.filter _).map Prod.snd).length = df.rows.length
  rw [List.length_map, List.length_map]
  have hpart := length_filter_partition
    (fun q : Nat × List Cell => rowDraw 0 q.1 % 100 < 95) df.rows.enum
  rw [List.enum_length] at hpart
  exact hpart

/-- Digit characters evaluate back to their digit. -/
theorem digitVal_digitToChar : ∀ k, k < 10 → digitVal (digitToChar k) = k := by
  decide

/-- Digit characters are never an underscore. -/
theorem digitToChar_ne_underscore : ∀ k, k < 10 → digitToChar k ≠ '_' := by
  decide

/-- Appending one digit multiplies the denoted value by ten and adds the
digit. -/
theorem digitsVal_append_singleton (cs : List Char) (c : Char) :
    digitsVal (cs ++ [c]) = 10 * digitsVal cs + digitVal c := by
  simp [digitsVal, List.foldl_append]

/-- With enough fuel, the decimal rendering denotes the number itself. -/
theorem natDigitsAux_val : ∀ fuel n, n < fuel →
    digitsVal (natDigitsAux fuel n) = n := by
  intro fuel
  induction fuel with
  | zero => intro n h; exact absurd h (Nat.not_lt_zero n)
  | succ fuel ih =>
    intro n h
    by_cases h10 : n < 10
    · simp [natDigitsAux, h10, digitsVal, digitVal_digitToChar n h10]
    · have hdiv : n / 10 < fuel := by
        have := Nat.div_lt_self (show 0 < n by omega) (show 1 < 10 by omega)
        omega
      have hmod : n % 10 < 10 := Nat.mod_lt n (by omega)
      rw [show natDigitsAux (fuel + 1) n =
          natDigitsAux fuel (n / 10) ++ [digitToChar (n % 10)] by
        simp [natDigitsAux, h10]]
      rw [digitsVal_append_singleton, ih (n / 10) hdiv,
        digitVal_digitToChar (n % 10) hmod]
      omega

/-- The decimal rendering denotes the number itself. -/
theorem natDigits_val (n : Nat) : digitsVal (natDigits n) = n :=
  natDigitsAux_val (n + 1) n (Nat.lt_succ_self n)

/-- Decimal renderings of distinct numbers differ. -/
theorem natDigits_inj (m n : Nat) (h : natDigits m = natDigits n) : m = n := by
  rw [← natDigits_val m, ← natDigits_val n, h]

/-- No underscore occurs in a decimal rendering. -/
theorem underscore_not_mem_natDigitsAux :
    ∀ fuel n, '_' ∉ natDigitsAux fuel n := by
  intro fuel
  induction fuel with
  | zero => intro n; simp [natDigitsAux]
  | succ fuel ih =>
    intro n
    by_cases h10 : n < 10
    · simp only [natDigitsAux, if_pos h10]
      intro hmem
      rcases List.mem_singleton.mp hmem with h
      exact digitToChar_ne_underscore n h10 h.symm
    · simp only [natDigitsAux, if_neg h10]
      intro hmem
      rcases List.mem_append.mp hmem with h | h
      · exact ih (n / 10) h
      · have hmod : n % 10 < 10 := Nat.mod_lt n (by omega)
        exact digitToChar_ne_underscore (n % 10) hmod
          (List.mem_singleton.mp h).symm

/-- No underscore occurs in `natDigits n`. -/
theorem underscore_not_mem_natDigits (n : Nat) : '_' ∉ natDigits n :=
  underscore_not_mem_natDigitsAux (n + 1) n

/-- The sought character does not occur before its first index. -/
theorem firstIdx_not_mem_take {c : Char} :
    ∀ (cs : List Char) (j : Nat), firstIdx c cs = some j → c ∉ cs.take j := by
  intro cs
  induction cs with
  | nil => intro j _; simp
  | cons x xs ih =>
    intro j hj
    by_cases hx : x = c
    · rw [firstIdx, if_pos hx] at hj
      cases hj
      simp
    · rw [firstIdx, if_neg hx] at hj
      cases hfi : firstIdx c xs with
      | none => rw [hfi] at hj; cases hj
      | some j' =>
        rw [hfi] at hj
        cases hj
        intro hmem
        rcases List.mem_cons.mp hmem with h | h
        · exact hx h.symm
        · exact ih j' hfi h

/-- When the character has no first index, it does not occur at all. -/
theorem firstIdx_none_not_mem {c : Char} :
    ∀ cs : List Char, firstIdx c cs = none → c ∉ cs := by
  intro cs
  induction cs with
  | nil => intro _; simp
  | cons x xs ih =>
    intro h
    by_cases hx : x = c
    · rw [firstIdx, if_pos hx] at h
      cases h
    · rw [firstIdx, if_neg hx] at h
      intro hmem
      rcases List.mem_cons.mp hmem with hm | hm
      · exact hx hm.symm
      · cases hfi : firstIdx c xs with
        | none => exact ih hfi hm
        | some j => rw [hfi] at h; cases h

/-- No underscore survives into the renamed stem. -/
theorem underscore_not_mem_renameStem (cs : List Char) :
    '_' ∉ renameStem cs := by
  unfold renameStem
  cases hfi : firstIdx '_' cs with
  | some j =>
    show '_' ∉ (cs.take j).drop 1
    intro hmem
    exact firstIdx_not_mem_take cs j hfi (List.drop_subset 1 _ hmem)
  | none =>
    show '_' ∉ (cs.drop 1).dropLast
    intro hmem
    exact firstIdx_none_not_mem cs hfi
      (List.drop_subset 1 cs (List.dropLast_subset _ hmem))

/-- Two underscore-free prefixes followed by the double-underscore
separator decompose uniquely. -/
theorem append_sep_inj :
    ∀ (a b s t : List Char), '_' ∉ a → '_' ∉ b →
      a ++ '_' :: '_' :: s = b ++ '_' :: '_' :: t → a = b ∧ s = t := by
  intro a
  induction a with
  | nil =>
    intro b s t _ hb heq
    cases b with
    | nil =>
      simp only [List.nil_append] at heq
      injection heq with h1 h2
      injection h2 with h3 h4
      exact ⟨rfl, h4⟩
    | cons y b' =>
      simp only [List.nil_append, List.cons_append] at heq
      injection heq with h1 h2
      exact absurd (by rw [← h1]; exact List.mem_cons_self '_' b' :
        '_' ∈ y :: b') hb
  | cons x a' ih =>
    intro b s t ha hb heq
    cases b with
    | nil =>
      simp only [List.cons_append, List.nil_append] at heq
      injection heq with h1 h2
      exact absurd (by rw [h1]; exact List.mem_cons_self '_' a' :
        '_' ∈ x :: a') ha
    | cons y b' =>
      simp only [List.cons_append] at heq
      injection heq with h1 h2
      have ha' : '_' ∉ a' := fun hm => ha (List.mem_cons_of_mem x hm)
      have hb' : '_' ∉ b' := fun hm => hb (List.mem_cons_of_mem y hm)
      obtain ⟨hab, hst⟩ := ih b' s t ha' hb' h2
      exact ⟨by rw [h1, hab], hst⟩

/-- Unfolding of the rename on a quoted name. -/
theorem renameOne_quoted (n : Nat) (s : String)
    (h : startsWithQuote s = true) :
    renameOne n s =
      String.mk (renameStem s.toList ++ '_' :: '_' :: natDigits n) := by
  simp [renameOne, h]

/-- A name not starting with a double quote is kept unchanged. -/
theorem renameOne_of_not_quoted (n : Nat) (s : String)
    (h : startsWithQuote s = false) :
    renameOne n s = s := by
  simp [renameOne, h]

/-- Two renamed (quote-led) columns can only share their new name when
they sit at the same position: the positional suffix decides. -/
theorem renameOne_inj_quoted {i j : Nat} {a b : String}
    (ha : startsWithQuote a = true) (hb : startsWithQuote b = true)
    (heq : renameOne i a = renameOne j b) : i = j := by
  rw [renameOne_quoted i a ha, renameOne_quoted j b hb] at heq
  have hlists : renameStem a.toList ++ '_' :: '_' :: natDigits i =
      renameStem b.toList ++ '_' :: '_' :: natDigits j := by
    have := congrArg String.data heq
    simpa using this
  obtain ⟨-, htail⟩ := append_sep_inj _ _ _ _
    (underscore_not_mem_renameStem a.toList)
    (underscore_not_mem_renameStem b.toList) hlists
  exact natDigits_inj i j htail

/-- Position `i` of the renamed name list is the rename of position `i`
of the input. -/
theorem renameNames_get (names : List String) (i : Nat)
    (hi : i < names.length) (hi' : i < (renameNames names).length) :
    (renameNames names).get ⟨i, hi'⟩ = renameOne i (names.get ⟨i, hi⟩) := by
  unfold renameNames
  simp [List.get_eq_getElem, List.getElem_map, List.getElem_enum]

/-- C7 (counterexample): the renaming map is not injective on every list
of distinct column names — the quoted name at position 0 is renamed to
`A__0`, colliding with the unrenamed second column literally named
`A__0`. -/
theorem renaming_collision :
    (["\"A_B\"", "A__0"] : List String).Nodup ∧
      ¬ (renameNames ["\"A_B\"", "A__0"]).Nodup := by
  decide

/-- C7 (amended): the renaming map is injective on the renamed columns —
two columns whose names begin with a double quote never receive the same
new name, because the positional suffix `__n` decides; a collision
remains possible between a renamed column and a column kept unchanged. -/
theorem renameNames_inj_on_quoted (names : List String) (i j : Nat)
    (hi : i < names.length) (hj : j < names.length)
    (hi' : i < (renameNames names).length)
    (hj' : j < (renameNames names).length)
    (hqi : startsWithQuote (names.get ⟨i, hi⟩) = true)
    (hqj : startsWithQuote (names.get ⟨j, hj⟩) = true)
    (heq : (renameNames names).get ⟨i, hi'⟩ =
      (renameNames names).get ⟨j, hj'⟩) : i = j := by
  rw [renameNames_get names i hi hi', renameNames_get names j hj hj'] at heq
  exact renameOne_inj_quoted hqi hqj heq

/-- C7 (witness): the injectivity theorem applied to a concrete list of
two quoted names at position 0 against itself. -/
theorem renameNames_inj_on_quoted_witness :
    startsWithQuote ((["\"A_X\"", "\"B_Y\""] : List String).get
        ⟨0, by decide⟩) = true ∧ (0 : Nat) = 0 :=
  ⟨by decide,
    renameNames_inj_on_quoted ["\"A_X\"", "\"B_Y\""] 0 0 (by decide)
      (by decide) (by decide) (by decide) (by decide) (by decide) rfl⟩

/-- Encoding with an empty input-column list leaves the frame alone. -/
theorem oneHotEncode_nil_inputs (cols : List PCol) :
    oneHotEncode [] cols = cols := by
  unfold oneHotEncode
  induction cols with
  | nil => rfl
  | cons c rest ih => simp [ih]

/-- A frame without string-typed columns has no `string_cols`. -/
theorem stringColNames_nil {cols : List PCol}
    (h : ∀ c ∈ cols, c.dtype ≠ SqlType.string) :
    stringColNames cols = [] := by
  unfold stringColNames
  have hf : cols.filter (fun c => c.dtype = SqlType.string) = [] :=
    List.filter_eq_nil_iff.mpr (fun c hc => by simpa using h c hc)
  rw [hf]
  rfl

/-- When no column name starts with a double quote, the renaming keeps
every column. -/
theorem renameFrame_id {cols : List PCol}
    (h : ∀ c ∈ cols, startsWithQuote c.name = false) :
    renameFrame cols = cols := by
  have key : ∀ (cs : List PCol),
      (∀ c ∈ cs, startsWithQuote c.name = false) →
      ∀ k, (List.enumFrom k cs).map
        (fun p => { p.2 with name := renameOne p.1 p.2.name }) = cs := by
    intro cs
    induction cs with
    | nil => intro _ k; rfl
    | cons c rest ih =>
      intro hcs k
      rw [show List.enumFrom k (c :: rest) =
          (k, c) :: List.enumFrom (k + 1) rest from rfl, List.map_cons]
      show ({ c with name := renameOne k c.name }) :: _ = c :: rest
      rw [renameOne_of_not_quoted k c.name (hcs c (List.mem_cons_self c rest))]
      rw [ih (fun d hd => hcs d (List.mem_cons_of_mem c hd)) (k + 1)]
  show (cols.enum).map _ = cols
  rw [show cols.enum = List.enumFrom 0 cols from rfl]
  exact key cols h 0

/-- C5 (counterexample): the Encoder is not idempotent on all of its own
outputs — the output for a numeric column named with two leading double
quotes is itself an encoder output with no string columns, yet running
the Encoder again renames its column once more. -/
theorem encoder_not_idempotent_on_quoted_output :
    encoderStage (encoderStage exColsQuote) ≠ encoderStage exColsQuote := by
  decide

/-- C5 (amended): the Encoder stage is a no-op on frames shaped like its
well-behaved outputs: no string-typed column (nothing left to one-hot
encode), no column name starting with a double quote (nothing left to
rename), and columns already sorted by name. -/
theorem encoder_idempotent_on_clean_frames (cols : List PCol)
    (hstr : ∀ c ∈ cols, c.dtype ≠ SqlType.string)
    (hq : ∀ c ∈ cols, startsWithQuote c.name = false)
    (hsort : List.Sorted (fun a b : PCol => a.name ≤ b.name) cols) :
    encoderStage cols = cols := by
  unfold encoderStage
  rw [stringColNames_nil hstr, oneHotEncode_nil_inputs, renameFrame_id hq]
  exact List.Sorted.insertionSort_eq hsort

/-- C5 (witness): the idempotence theorem applied to a concrete sorted
two-column numeric frame. -/
theorem encoder_idempotent_on_clean_frames_witness :
    (∀ c ∈ exColsPlain, c.dtype ≠ SqlType.string) ∧
      (∀ c ∈ exColsPlain, startsWithQuote c.name = false) ∧
      List.Sorted (fun a b : PCol => a.name ≤ b.name) exColsPlain ∧
      encoderStage exColsPlain = exColsPlain :=
  have hsort : List.Sorted (fun a b : PCol => a.name ≤ b.name) exColsPlain := by
    refine List.sorted_cons.mpr ⟨?_, List.sorted_singleton _⟩
    intro b hb
    rw [List.mem_singleton.mp hb]
    show ("A" : String) ≤ "B"
    rw [String.le_iff_toList_le]
    decide
  ⟨by decide, by decide, hsort,
    encoder_idempotent_on_clean_frames exColsPlain (by decide) (by decide)
      hsort⟩

/-- C1 (counterexample): the filter does not remove exactly the rows with
PRICE ≥ 100000 — a row whose PRICE is NULL is also removed, though its
PRICE is not ≥ 100000 (SQL comparisons with NULL are never TRUE). -/
theorem filter_removes_null_price_too :
    (filterLtCol "PRICE" 100000 exDfNullPrice).rows ≠
      exDfNullPrice.rows.filter
        (fun r => ! cellGeBool (getCell exDfNullPrice r "PRICE") 100000) := by
  decide

/-- C1 (amended): a row of the input survives the Cleaner's filter step
exactly when its PRICE is a non-null numeric value strictly below 100000;
in particular every surviving row has PRICE < 100000, and rows whose PRICE
is ≥ 100000 or missing are removed. -/
theorem filter_keeps_exactly_price_lt (df : SpDataFrame) (r : List Cell)
    (hr : r ∈ df.rows) :
    r ∈ (filterLtCol "PRICE" 100000 df).rows ↔
      ∃ n : Int, getCell df r "PRICE" = some (.num n) ∧ n < 100000 := by
  show r ∈ df.rows.filter _ ↔ _
  rw [List.mem_filter]
  cases h : getCell df r "PRICE" with
  | none => simp [cellLtBool, h, hr]
  | some v =>
    cases v with
    | str s => simp [cellLtBool, h, hr]
    | num n => simp [cellLtBool, h, hr]

/-- C1 (witness): on a one-row frame with PRICE 5 the amended theorem
applies: the row survives since its PRICE is a numeric value below
100000. -/
theorem filter_keeps_exactly_price_lt_witness :
    [some (Value.num 5)] ∈ exDfCheapPrice.rows ∧
      ([some (Value.num 5)] ∈ (filterLtCol "PRICE" 100000 exDfCheapPrice).rows ↔
        ∃ n : Int,
          getCell exDfCheapPrice [some (Value.num 5)] "PRICE" = some (.num n) ∧
            n < 100000) :=
  ⟨by decide, filter_keeps_exactly_price_lt exDfCheapPrice _ (by decide)⟩

/-- C10: in both configurations the inputs exclude the label: `input_cols`
is the train columns with PRICE removed, `label_cols` is exactly
`[PRICE]`, and PRICE is never an input column. -/
theorem trainer_no_target_leakage (train : SpDataFrame)
    (h : "PRICE" ∈ train.columns) :
    (cpuSnowparkXgb train).input_cols =
        train.columns.filter (fun n => n ≠ "PRICE") ∧
      (cpuSnowparkXgb train).label_cols = ["PRICE"] ∧
      "PRICE" ∉ (cpuSnowparkXgb train).input_cols ∧
      (gpuSnowparkXgb train).input_cols = (cpuSnowparkXgb train).input_cols ∧
      (gpuSnowparkXgb train).label_cols = (cpuSnowparkXgb train).label_cols := by
  have hin : (cpuSnowparkXgb train).input_cols =
      train.columns.filter (fun n => n ≠ "PRICE") := by
    show (dropCols ["PRICE"] train).columns = _
    rw [dropCols_columns]
    refine List.filter_congr ?_
    intro x _
    simp
  have hlab : (cpuSnowparkXgb train).label_cols = ["PRICE"] := by
    show (selectCols ["PRICE"] train).columns = _
    obtain ⟨i, c, hfind, hget, hc⟩ := @findColIdx_of_mem train.schema "PRICE" h
    simp [selectCols, SpDataFrame.columns, hfind, hget, hc]
  refine ⟨hin, hlab, ?_, rfl, rfl⟩
  rw [hin]
  simp

/-- C10 (witness): the leakage-freedom theorem applied to a concrete
two-column training frame containing PRICE. -/
theorem trainer_no_target_leakage_witness :
    "PRICE" ∈ exTrainFrame.columns ∧
      ((cpuSnowparkXgb exTrainFrame).input_cols =
          exTrainFrame.columns.filter (fun n => n ≠ "PRICE") ∧
        (cpuSnowparkXgb exTrainFrame).label_cols = ["PRICE"] ∧
        "PRICE" ∉ (cpuSnowparkXgb exTrainFrame).input_cols ∧
        (gpuSnowparkXgb exTrainFrame).input_cols =
          (cpuSnowparkXgb exTrainFrame).input_cols ∧
        (gpuSnowparkXgb exTrainFrame).label_cols =
          (cpuSnowparkXgb exTrainFrame).label_cols) :=
  ⟨by decide, trainer_no_target_leakage exTrainFrame (by decide)⟩

end XgbPipeline
